import Mathlib

/-!
Verification of the sweep-analyzer detection core.

Shallow embedding of `drone_detection.py` and `hackrf_sweep/core.py`.
Power values (dB) are modelled as rationals; numpy arrays as `List ℚ`
(rows) and `List (List ℚ)` (2-D sweeps).  Two points of the source are
modelled abstractly and every theorem below quantifies over the
abstraction:

* `HISTORY.std(axis=0)` involves an irrational square root, so the
  per-bin dispersion is passed as a function parameter `stdOf`; all
  theorems hold for every dispersion function, which subsumes the one
  the code computes.
* `measure_rssi` talks to hardware; its data flow is the parameter
  `probe : ℚ → ℚ × List ℚ` mapping a centre frequency (Hz) to the
  `(timestamp, slave readings)` pair the call returns.  The thread
  structure of `measure_rssi` itself is modelled separately as a
  small-step interleaving system (`rrStep`/`rrExec`).

Wall-clock values in the printed lines are abstracted away: only which
lines are printed is modelled (`Out`).  File writes (`np.save`) are not
modelled.
-/

/-- Number of warm-up sweeps averaged into the baseline
(`BASELINE_SWEEPS = 5` in `drone_detection.py`). -/
def BASELINE_SWEEPS : ℕ := 5

/-- Depth of the history ring buffer (`HISTORY_LEN = 10`). -/
def HISTORY_LEN : ℕ := 10

/-- A 2-D sweep: list of step rows, each a list of per-bin powers. -/
abbrev Mat := List (List ℚ)

/-- Sum of a list of rationals (`np.sum` over a 1-D slice). -/
def listSum (l : List ℚ) : ℚ := l.foldl (· + ·) 0

/-- `arr.mean()` for a 1-D numpy array. -/
def npMean (l : List ℚ) : ℚ := listSum l / l.length

/-- Python slice `l[s:e]`. -/
def sliceL (l : List ℚ) (s e : ℕ) : List ℚ := (l.drop s).take (e - s)

/-- Number of columns of a 2-D array (length of its first row). -/
def cols (m : Mat) : ℕ := (m.headD []).length

/-- `np.zeros_like(m)`. -/
def zerosLike (m : Mat) : Mat := m.map (fun r => r.map (fun _ => 0))

/-- Element-wise sum of two rows. -/
def rowAdd (a b : List ℚ) : List ℚ := List.zipWith (· + ·) a b

/-- Element-wise sum of two 2-D arrays of equal shape. -/
def matAdd (a b : Mat) : Mat := List.zipWith rowAdd a b

/-- `m / n` for a scalar `n` (numpy array division). -/
def matDivN (m : Mat) (n : ℕ) : Mat := m.map (fun r => r.map (fun x => x / (n : ℚ)))

/-- Broadcast one row to `c` columns (numpy rule for one axis:
keep when the length matches, stretch a length-1 axis, else fail). -/
def bcastRow (row : List ℚ) (c : ℕ) : Option (List ℚ) :=
  if row.length = c then some row
  else if row.length = 1 then some (List.replicate c (row.getD 0 0))
  else none

/-- Broadcast every row of a 2-D array to `c` columns; fail if any
row cannot be broadcast. -/
def bcastRows : Mat → ℕ → Option Mat
  | [], _ => some []
  | row :: rest, c =>
    match bcastRow row c, bcastRows rest c with
    | some r2, some rs2 => some (r2 :: rs2)
    | _, _ => none

/-- Broadcast a 2-D array to shape `r × c` (numpy broadcasting). -/
def broadcastTo (b : Mat) (r c : ℕ) : Option Mat :=
  let rows? : Option Mat :=
    if b.length = r then some b
    else if b.length = 1 then some (List.replicate r (b.getD 0 []))
    else none
  rows?.bind (fun rows => bcastRows rows c)

/-- `a += b` for numpy arrays: `b` must broadcast to the shape of `a`
(a shape mismatch that cannot broadcast raises `ValueError`). -/
def addInPlace (a b : Mat) : Option Mat :=
  (broadcastTo b a.length (cols a)).map (fun b2 => matAdd a b2)

/-- Common broadcast length of one axis of two numpy operands. -/
def dimB (a b : ℕ) : Option ℕ :=
  if a = b then some a else if a = 1 then some b else if b = 1 then some a else none

/-- Broadcast two 2-D operands to their common shape (`sweep - BASELINE`). -/
def broadcastPair (a b : Mat) : Option (Mat × Mat) :=
  (dimB a.length b.length).bind fun r =>
  (dimB (cols a) (cols b)).bind fun c =>
  (broadcastTo a r c).bind fun a2 =>
  (broadcastTo b r c).map fun b2 => (a2, b2)

/-- A 2-D list is rectangular (what being a numpy array guarantees). -/
def Rect (m : Mat) : Prop := ∀ r ∈ m, r.length = cols m

instance (m : Mat) : Decidable (Rect m) := by
  unfold Rect; infer_instance

/-- Loop of `_segments` from `drone_detection.py`: walk the mask with
the index `i` and the `start` of the open run (`acc`). -/
def segmentsAux : List Bool → ℕ → Option ℕ → List (ℕ × ℕ)
  | [], _, none => []
  | [], i, some s => [(s, i)]
  | b :: rest, i, none =>
      if b then segmentsAux rest (i + 1) (some i) else segmentsAux rest (i + 1) none
  | b :: rest, i, some s =>
      if b then segmentsAux rest (i + 1) (some s)
      else (s, i) :: segmentsAux rest (i + 1) none

/-- `_segments(mask)`: maximal runs of `True`, as half-open `(start, end)`. -/
def segments (mask : List Bool) : List (ℕ × ℕ) := segmentsAux mask 0 none

/-- The `for i in range(3, arr.size)` loop of `_top3_mean`: slide the
3-wide window sum and keep the maximal mean.  The loop is rendered
structurally with its remaining iteration count `k` (the Python loop
runs exactly `arr.size - 3` times with `i` counting up from 3). -/
def top3Go (arr : List ℚ) : ℕ → ℕ → ℚ → ℚ → ℚ
  | 0, _, _, maxMean => maxMean
  | k + 1, i, windowSum, maxMean =>
    let ws := windowSum + arr.getD i 0 - arr.getD (i - 3) 0
    let m := ws / 3
    top3Go arr k (i + 1) ws (if m > maxMean then m else maxMean)

/-- `_top3_mean(arr)` from `drone_detection.py` (identical copy in
`hackrf_sweep/core.py`): plain mean for arrays shorter than 3,
otherwise the sliding-window maximum mean of 3 consecutive bins. -/
def top3_mean (arr : List ℚ) : ℚ :=
  if arr.length < 3 then npMean arr
  else
    let ws := arr.getD 0 0 + arr.getD 1 0 + arr.getD 2 0
    top3Go arr (arr.length - 3) 3 ws (ws / 3)

/-- Written from the spec's words, for the refinement claim: the
maximum, over all windows of 3 consecutive bins, of that window's
arithmetic mean. -/
def specMaxWindowMean (arr : List ℚ) : ℚ :=
  match (List.range (arr.length - 2)).map
      (fun j => (arr.getD j 0 + arr.getD (j + 1) 0 + arr.getD (j + 2) 0) / 3) with
  | [] => 0
  | x :: rest => rest.foldl max x

/-- `_classify(start, end)`: band table on centre frequency and width. -/
def classify (s e : ℚ) : Option String :=
  let width := e - s
  let center := (s + e) / 2
  if 5740 ≤ center ∧ center ≤ 5820 ∧ 15 ≤ width ∧ width ≤ 25 then some "FPV video"
  else if 2402 ≤ center ∧ center ≤ 2483 ∧ width ≤ 5 then some "drone telemetry or Wi-Fi"
  else if |center - 433| ≤ 1 ∧ width ≤ 2 then some "433 MHz control"
  else if |center - 868| ≤ 1 ∧ width ≤ 2 then some "868 MHz control"
  else none

/-- Configuration constants read at module import
(`THRESHOLD_DB`, `IGNORE_LEVEL_DBM`, `MIN_BINS`, `STDDEV_MAX_DB`,
`START_MHZ`, `STEP_MHZ`, `BIN_WIDTH_MHZ`). -/
structure Cfg where
  thresholdDb : ℚ
  ignoreLevelDbm : ℚ
  minBins : ℕ
  stddevMaxDb : ℚ
  startMhz : ℚ
  stepMhz : ℚ
  binWidthMhz : ℚ
deriving DecidableEq

/-- The configuration defaults: `threshold_db = 10`, `ignore_level_dbm
= -100`, `min_bins = 3`, `stddev_max_db = 5`; sweep geometry from
`config.json` defaults (`freq_start 50 MHz`, `step 5 MHz`) with
`BIN_WIDTH_MHZ = 20e6 / 256 / 1e6 = 5/64`. -/
def defaultCfg : Cfg := ⟨10, -100, 3, 5, 50, 5, 5 / 64⟩

/-- One surviving detection record of a cycle: step row, bin run,
sign (`true` = "+" / up), and the two robust levels. -/
structure Rec where
  stepIdx : ℕ
  startIdx : ℕ
  endIdx : ℕ
  pos : Bool
  meanBase : ℚ
  meanCurr : ℚ
deriving DecidableEq

/-- One `TRACKED[key]` entry. -/
structure Entry where
  key : ℚ × ℚ
  baseline : ℚ
  master : ℚ
  slaves : List ℚ
  ts : ℚ
  idx : ℕ × ℕ × ℕ
  count : ℕ
  cls : Option String
deriving DecidableEq

/-- The console lines `process_sweep` can print, with wall-clock
values and record details abstracted to the line kind. -/
inductive Out where
  | baselineDone
  | computing
  | sweepTime
  | alert (stepIdx startIdx endIdx : ℕ) (pos : Bool)
  | noAlerts
deriving DecidableEq

/-- Whether an output line is a detection record line. -/
def Out.isAlert : Out → Bool
  | .alert _ _ _ _ => true
  | _ => false

/-- The module-level mutable state of `drone_detection.py`. -/
structure DetState where
  baselineAccum : Option Mat
  baselineCount : ℕ
  baseline : Option Mat
  history : List Mat
  histIdx : ℕ
  histFilled : Bool
  tracked : List Entry
deriving DecidableEq

/-- The state at import time with no persisted baseline:
`HISTORY = np.zeros((HISTORY_LEN, 0, 0))`, nothing tracked. -/
def initState : DetState :=
  ⟨none, 0, none, List.replicate HISTORY_LEN [], 0, false, []⟩

/-- Row of `diff >= THRESHOLD_DB` (`mask_up`). -/
def maskUp (cfg : Cfg) (currRow baseRow : List ℚ) : List Bool :=
  List.zipWith (fun c b => decide (cfg.thresholdDb ≤ c - b)) currRow baseRow

/-- Row of `diff <= -THRESHOLD_DB` (`mask_down`). -/
def maskDown (cfg : Cfg) (currRow baseRow : List ℚ) : List Bool :=
  List.zipWith (fun c b => decide (c - b ≤ -cfg.thresholdDb)) currRow baseRow

/-- The per-segment filter chain of `process_sweep` (lines 206-219):
length check, robust levels, noise-floor ignore, dispersion ceiling,
robust-delta check.  Returns the two robust levels of a survivor. -/
def keepSeg (cfg : Cfg) (baseRow currRow stdRow : List ℚ) (s e : ℕ) : Option (ℚ × ℚ) :=
  if e - s < cfg.minBins ∧ 2 < e - s then none
  else
    let meanBase := top3_mean (sliceL baseRow s e)
    let meanCurr := top3_mean (sliceL currRow s e)
    if meanBase < cfg.ignoreLevelDbm ∧ meanCurr < cfg.ignoreLevelDbm then none
    else if cfg.stddevMaxDb < npMean (sliceL stdRow s e) then none
    else if |meanCurr - meanBase| < cfg.thresholdDb then none
    else some (meanBase, meanCurr)

/-- Apply `keepSeg` to every run of one mask, building records. -/
def detectSegs (cfg : Cfg) (baseRow currRow stdRow : List ℚ) (stepIdx : ℕ)
    (pos : Bool) (segs : List (ℕ × ℕ)) : List Rec :=
  segs.filterMap (fun p =>
    (keepSeg cfg baseRow currRow stdRow p.1 p.2).map
      (fun mm => ⟨stepIdx, p.1, p.2, pos, mm.1, mm.2⟩))

/-- All surviving records of one step row: up runs first, then down
runs, as in the `for segments, sign in ((up_segments, "+"), ...)` loop. -/
def detectRow (cfg : Cfg) (stepIdx : ℕ) (baseRow currRow stdRow : List ℚ) : List Rec :=
  detectSegs cfg baseRow currRow stdRow stepIdx true (segments (maskUp cfg currRow baseRow)) ++
  detectSegs cfg baseRow currRow stdRow stepIdx false (segments (maskDown cfg currRow baseRow))

/-- `mask_up.any(axis=1) | mask_down.any(axis=1)` for one row:
whether `np.where` selects this step row at all. -/
def rowTriggers (cfg : Cfg) (currRow baseRow : List ℚ) : Bool :=
  (maskUp cfg currRow baseRow).any id || (maskDown cfg currRow baseRow).any id

/-- The whole per-sweep detection loop over triggering rows. -/
def detectSweep (cfg : Cfg) (base sw std : Mat) : List Rec :=
  ((List.range sw.length).filter
      (fun i => rowTriggers cfg (sw.getD i []) (base.getD i []))).flatMap
    (fun i => detectRow cfg i (base.getD i []) (sw.getD i []) (std.getD i []))

/-- `key = (key_start, key_end)` of a run, from the step and bin
indices alone: `START_MHZ + step_idx * STEP_MHZ + bin_idx * BIN_WIDTH_MHZ`. -/
def rangeKey (cfg : Cfg) (stepIdx s e : ℕ) : ℚ × ℚ :=
  (cfg.startMhz + (stepIdx : ℚ) * cfg.stepMhz + (s : ℚ) * cfg.binWidthMhz,
   cfg.startMhz + (stepIdx : ℚ) * cfg.stepMhz + (e : ℚ) * cfg.binWidthMhz)

/-- The `TRACKED` update for one surviving record (lines 224-241):
probe the centre frequency, then either create a fresh entry with
count 1, or refresh the existing one in place, keeping its stored
baseline level and incrementing its count. -/
def applyRec (cfg : Cfg) (probe : ℚ → ℚ × List ℚ) (tr : List Entry) (r : Rec) : List Entry :=
  let k := rangeKey cfg r.stepIdx r.startIdx r.endIdx
  let pr := probe ((k.1 + k.2) / 2 * 1000000)
  match tr.find? (fun e => decide (e.key = k)) with
  | none =>
      tr ++ [⟨k, r.meanBase, r.meanCurr, pr.2, pr.1,
             (r.stepIdx, r.startIdx, r.endIdx), 1, classify k.1 k.2⟩]
  | some _ =>
      tr.map (fun e =>
        if e.key = k then
          { e with master := r.meanCurr, slaves := pr.2, ts := pr.1,
                   idx := (r.stepIdx, r.startIdx, r.endIdx), count := e.count + 1 }
        else e)

/-- Fold the tracker update over all records of the cycle. -/
def trackAll (cfg : Cfg) (probe : ℚ → ℚ × List ℚ) (tr : List Entry) (recs : List Rec) :
    List Entry :=
  recs.foldl (applyRec cfg probe) tr

/-- `sweep[step_idx, start_idx:end_idx]` for a stored bin coordinate. -/
def resampleSeg (sw : Mat) (idx : ℕ × ℕ × ℕ) : List ℚ :=
  sliceL (sw.getD idx.1 []) idx.2.1 idx.2.2

/-- The end-of-cycle eviction loop (lines 261-266): drop every entry
whose re-sampled robust level has come back within threshold of its
stored baseline level. -/
def evict (thr : ℚ) (sw : Mat) (tr : List Entry) : List Entry :=
  tr.filter (fun e => !decide (|top3_mean (resampleSeg sw e.idx) - e.baseline| < thr))

/-- The warm-up branch of `process_sweep` (lines 167-177): initialise
the accumulator and history on the first sweep, accumulate with numpy
`+=` semantics, and freeze the baseline after `BASELINE_SWEEPS`
observations.  Prints nothing except the baseline-ready notice. -/
def warmPhase (st : DetState) (sweep : Mat) : Except Unit (DetState × List Out) :=
  let accum0 := match st.baselineAccum with
    | none => zerosLike sweep
    | some a => a
  let hist0 := match st.baselineAccum with
    | none => List.replicate HISTORY_LEN (zerosLike sweep)
    | some _ => st.history
  match addInPlace accum0 sweep with
  | none => Except.error ()
  | some acc =>
    let cnt := st.baselineCount + 1
    if cnt = BASELINE_SWEEPS then
      Except.ok ({ st with baselineAccum := some acc, baselineCount := cnt,
                           history := hist0,
                           baseline := some (matDivN acc BASELINE_SWEEPS) },
                 [Out.baselineDone])
    else
      Except.ok ({ st with baselineAccum := some acc, baselineCount := cnt,
                           history := hist0 }, [])

/-- The history-filling branch (lines 180-186): store the sweep, bump
the index, set the filled flag at `HISTORY_LEN`, print the timing line. -/
def histPhase (st : DetState) (sweep : Mat) : Except Unit (DetState × List Out) :=
  let hist := st.history.set st.histIdx sweep
  let idx := st.histIdx + 1
  Except.ok ({ st with history := hist, histIdx := idx,
                       histFilled := decide (idx = HISTORY_LEN) }, [Out.sweepTime])

/-- The full detection branch (lines 188-273): compute `sweep -
BASELINE` under numpy broadcasting (a non-broadcastable shape raises),
detect, update `TRACKED`, evict (the eviction re-samples the raw
`sweep`, as the source does), print the timing line and, when nothing
was found, the no-alerts line, and store the sweep in the history
ring.  For a broadcast-compatible but unequal shape the detection loop
reads the broadcast operands where Python indexes the raw arrays (and
the final ring-buffer store is a plain slot update); no theorem below
depends on that degenerate case. -/
def mainPhase (cfg : Cfg) (stdOf : List Mat → Mat) (probe : ℚ → ℚ × List ℚ)
    (st : DetState) (sweep : Mat) : Except Unit (DetState × List Out) :=
  match broadcastPair sweep (st.baseline.getD []) with
  | none => Except.error ()
  | some (sw, base) =>
    let std := stdOf st.history
    let recs := detectSweep cfg base sw std
    let tr1 := trackAll cfg probe st.tracked recs
    let tr2 := evict cfg.thresholdDb sweep tr1
    let outs := Out.computing ::
      (recs.map (fun r => Out.alert r.stepIdx r.startIdx r.endIdx r.pos) ++
       [Out.sweepTime] ++ (if recs.isEmpty then [Out.noAlerts] else []))
    let hist := st.history.set (st.histIdx % HISTORY_LEN) sweep
    Except.ok ({ st with tracked := tr2, history := hist, histIdx := st.histIdx + 1 }, outs)

/-- The pre-check of `process_sweep` (lines 163-164): when a persisted
baseline was loaded but the history still has the import-time empty
shape, reinitialise the history to zeros of the sweep's shape. -/
def reinitHistory (st : DetState) (sweep : Mat) : DetState :=
  if st.baseline.isSome && (st.history.headD []).isEmpty then
    { st with history := List.replicate HISTORY_LEN (zerosLike sweep) }
  else st

/-- `process_sweep(sweep)`: the pre-check, then one of the three
phases.  `stdOf` abstracts `HISTORY.std(axis=0)` and `probe` abstracts
`measure_rssi` (see the file header). -/
def process_sweep (cfg : Cfg) (stdOf : List Mat → Mat) (probe : ℚ → ℚ × List ℚ)
    (st : DetState) (sweep : Mat) : Except Unit (DetState × List Out) :=
  let st1 := reinitHistory st sweep
  match st1.baseline with
  | none => warmPhase st1 sweep
  | some _ =>
      if st1.histFilled then mainPhase cfg stdOf probe st1 sweep
      else histPhase st1 sweep

/-- Feed a list of sweeps through `process_sweep`, collecting all
output lines; stop at the first raised error. -/
def runSweeps (cfg : Cfg) (stdOf : List Mat → Mat) (probe : ℚ → ℚ × List ℚ) :
    DetState → List Mat → Except Unit (DetState × List Out)
  | st, [] => Except.ok (st, [])
  | st, s :: rest =>
    match process_sweep cfg stdOf probe st s with
    | Except.error e => Except.error e
    | Except.ok (st2, outs) =>
      match runSweeps cfg stdOf probe st2 rest with
      | Except.error e => Except.error e
      | Except.ok (st3, outs2) => Except.ok (st3, outs ++ outs2)

/-! ### Interleaving model of `measure_rssi` (hackrf_sweep/core.py)

One correlation round starts one worker thread per auxiliary device;
worker `(round, device)` runs the straight-line program

  0: `hackrf_set_freq`   1: `hackrf_start_rx`   2: `event.wait()`
  3: `hackrf_stop_rx`    4: `results[idx] = ...`

`event.wait()` carries no timeout, so step 2 is enabled only if the
device's callback fires (`responds r d`).  The code takes no lock, so
any interleaving respecting each worker's program order is a possible
execution; a schedule is a list of `(round, device)` choices. -/

/-- Length of the worker program. -/
def progLen : ℕ := 5

/-- Index of the untimed `event.wait()` step. -/
def waitIdx : ℕ := 2

/-- One scheduler step: advance worker `(r, d)` by one instruction if
it exists, has instructions left, and is not blocked at the wait. -/
def rrStep (responds : ℕ → ℕ → Bool) (st : List (List ℕ)) (r d : ℕ) :
    Option (List (List ℕ)) :=
  let pc := (st.getD r []).getD d progLen
  if pc < progLen ∧ (pc = waitIdx → responds r d = true) then
    some (st.set r ((st.getD r []).set d (pc + 1)))
  else none

/-- Run a schedule from a state; `none` when the schedule picks a
blocked or non-existent worker. -/
def rrExec (responds : ℕ → ℕ → Bool) : List (List ℕ) → List (ℕ × ℕ) →
    Option (List (List ℕ))
  | st, [] => some st
  | st, c :: rest =>
    match rrStep responds st c.1 c.2 with
    | some st2 => rrExec responds st2 rest
    | none => none

/-- Initial state: every worker of every round at instruction 0. -/
def rrInit (rounds devices : ℕ) : List (List ℕ) :=
  List.replicate rounds (List.replicate devices 0)

/-- Round `r` is currently retuning / measuring on device `d`:
`set_freq` has been issued and `stop_rx` has not completed. -/
def inRetune (st : List (List ℕ)) (r d : ℕ) : Bool :=
  let pc := (st.getD r []).getD d 0
  decide (1 ≤ pc) && decide (pc ≤ 3)

/-- The round(s) have completed: every worker ran its whole program,
so every `t.join()` in `measure_rssi` has returned. -/
def rrDone (st : List (List ℕ)) : Bool :=
  st.all (fun row => row.all (fun pc => decide (pc = progLen)))

/-- Scenario with both devices' callbacks firing. -/
def respondsBoth : ℕ → ℕ → Bool := fun _ _ => true

/-- Scenario D of the spec: device 0 responds, device 1 never does. -/
def respondsOneOut : ℕ → ℕ → Bool := fun _ d => decide (d = 0)

/-! ## Theorems -/

theorem if_gt_eq_max (a b : ℚ) : (if b > a then b else a) = max a b := by
  split_ifs with hc
  · exact (max_eq_right hc.le).symm
  · exact (max_eq_left (not_lt.mp hc)).symm

theorem top3Go_spec (arr : List ℚ) :
    ∀ (k j : ℕ) (ws m : ℚ), j + 3 + k = arr.length →
      ws = arr.getD j 0 + arr.getD (j + 1) 0 + arr.getD (j + 2) 0 →
      top3Go arr k (j + 3) ws m =
        ((List.range' (j + 1) k).map
          (fun t => (arr.getD t 0 + arr.getD (t + 1) 0 + arr.getD (t + 2) 0) / 3)).foldl
          max m := by
  intro k
  induction k with
  | zero => intro j ws m _ _; simp [top3Go]
  | succ k ih =>
    intro j ws m hlen hws
    have h3 : j + 3 - 3 = j := by omega
    have hws2 : ws + arr.getD (j + 3) 0 - arr.getD (j + 3 - 3) 0 =
        arr.getD (j + 1) 0 + arr.getD (j + 1 + 1) 0 + arr.getD (j + 1 + 2) 0 := by
      rw [h3, hws]
      have e1 : j + 1 + 1 = j + 2 := by omega
      have e2 : j + 1 + 2 = j + 3 := by omega
      rw [e1, e2]; ring
    have hrec := ih (j + 1)
      (arr.getD (j + 1) 0 + arr.getD (j + 1 + 1) 0 + arr.getD (j + 1 + 2) 0)
      (max m ((arr.getD (j + 1) 0 + arr.getD (j + 1 + 1) 0 + arr.getD (j + 1 + 2) 0) / 3))
      (by omega) rfl
    rw [List.range'_succ, List.map_cons, List.foldl_cons]
    show top3Go arr k (j + 3 + 1) (ws + arr.getD (j + 3) 0 - arr.getD (j + 3 - 3) 0) _ = _
    rw [hws2, if_gt_eq_max]
    have e4 : j + 3 + 1 = j + 1 + 3 := by omega
    rw [e4]
    exact hrec

theorem top3_mean_short (arr : List ℚ) (h : arr.length < 3) :
    top3_mean arr = listSum arr / arr.length := by
  unfold top3_mean npMean
  simp [h]

/-- C6: the optimized sliding-window `_top3_mean` coincides, on every
array of at least 3 elements, with the spec's reference definition
"maximum over all 3-wide windows of the window's mean". -/
theorem C6_top3_mean_refines_spec (arr : List ℚ) (h : 3 ≤ arr.length) :
    top3_mean arr = specMaxWindowMean arr := by
  have hnl : ¬ (arr.length < 3) := by omega
  unfold top3_mean specMaxWindowMean
  simp only [if_neg hnl]
  have hspec := top3Go_spec arr (arr.length - 3) 0
    (arr.getD 0 0 + arr.getD 1 0 + arr.getD 2 0)
    ((arr.getD 0 0 + arr.getD 1 0 + arr.getD 2 0) / 3) (by omega) (by norm_num)
  simp only [Nat.zero_add] at hspec
  rw [hspec]
  have h2 : arr.length - 2 = (arr.length - 3) + 1 := by omega
  rw [h2, List.range_eq_range', List.range'_succ, List.map_cons]

/-- Witness for C6 at the concrete array `[1, 5, 2, 7, 3]`. -/
theorem C6_top3_mean_refines_spec_witness :
    3 ≤ ([1, 5, 2, 7, 3] : List ℚ).length ∧
      top3_mean [1, 5, 2, 7, 3] = specMaxWindowMean [1, 5, 2, 7, 3] :=
  ⟨by decide, C6_top3_mean_refines_spec [1, 5, 2, 7, 3] (by decide)⟩

theorem segmentsAux_bounds (mask : List Bool) :
    ∀ (i : ℕ) (acc : Option ℕ), (∀ s0, acc = some s0 → s0 < i) →
      ∀ p ∈ segmentsAux mask i acc, p.1 < p.2 ∧ p.2 ≤ i + mask.length := by
  induction mask with
  | nil =>
    intro i acc hacc p hp
    cases acc with
    | none => simp [segmentsAux] at hp
    | some s0 =>
      simp only [segmentsAux, List.mem_singleton] at hp
      subst hp
      exact ⟨hacc s0 rfl, by simp⟩
  | cons b rest ih =>
    intro i acc hacc p hp
    cases acc with
    | none =>
      by_cases hb : b
      · simp only [segmentsAux, if_pos hb] at hp
        have := ih (i + 1) (some i) (fun s0 hs => by cases hs; omega) p hp
        refine ⟨this.1, ?_⟩
        have := this.2; simp only [List.length_cons]; omega
      · simp only [segmentsAux, if_neg hb] at hp
        have := ih (i + 1) none (by simp) p hp
        refine ⟨this.1, ?_⟩
        have := this.2; simp only [List.length_cons]; omega
    | some s0 =>
      by_cases hb : b
      · simp only [segmentsAux, if_pos hb] at hp
        have := ih (i + 1) (some s0) (fun t ht => by cases ht; exact lt_trans (hacc s0 rfl) (by omega)) p hp
        refine ⟨this.1, ?_⟩
        have := this.2; simp only [List.length_cons]; omega
      · simp only [segmentsAux, if_neg hb] at hp
        rcases List.mem_cons.mp hp with h | h
        · subst h
          refine ⟨hacc s0 rfl, ?_⟩
          simp only [List.length_cons]; omega
        · have := ih (i + 1) none (by simp) p h
          refine ⟨this.1, ?_⟩
          have := this.2; simp only [List.length_cons]; omega

theorem segments_bounds (mask : List Bool) (p : ℕ × ℕ) (hp : p ∈ segments mask) :
    p.1 < p.2 ∧ p.2 ≤ mask.length := by
  have := segmentsAux_bounds mask 0 none (by simp) p hp
  simpa using this

theorem sliceL_length (l : List ℚ) (s e : ℕ) (he : e ≤ l.length) :
    (sliceL l s e).length = e - s := by
  unfold sliceL
  rw [List.length_take, List.length_drop]
  omega

theorem keepSeg_some (cfg : Cfg) (baseRow currRow stdRow : List ℚ) (s e : ℕ) (mm : ℚ × ℚ)
    (h : keepSeg cfg baseRow currRow stdRow s e = some mm) :
    mm.1 = top3_mean (sliceL baseRow s e) ∧ mm.2 = top3_mean (sliceL currRow s e) := by
  simp only [keepSeg] at h
  split_ifs at h
  · cases h; exact ⟨rfl, rfl⟩

theorem detectRow_run (cfg : Cfg) (stepIdx : ℕ) (baseRow currRow stdRow : List ℚ) (r : Rec)
    (hr : r ∈ detectRow cfg stepIdx baseRow currRow stdRow) :
    r.startIdx < r.endIdx ∧ r.endIdx ≤ currRow.length ∧ r.endIdx ≤ baseRow.length ∧
      r.meanBase = top3_mean (sliceL baseRow r.startIdx r.endIdx) ∧
      r.meanCurr = top3_mean (sliceL currRow r.startIdx r.endIdx) := by
  have hmask : ∀ b : Bool, ∀ mask : List Bool, mask.length ≤ currRow.length →
      mask.length ≤ baseRow.length →
      r ∈ detectSegs cfg baseRow currRow stdRow stepIdx b (segments mask) →
      r.startIdx < r.endIdx ∧ r.endIdx ≤ currRow.length ∧ r.endIdx ≤ baseRow.length ∧
        r.meanBase = top3_mean (sliceL baseRow r.startIdx r.endIdx) ∧
        r.meanCurr = top3_mean (sliceL currRow r.startIdx r.endIdx) := by
    intro b mask hmc hmb hmem
    unfold detectSegs at hmem
    rcases List.mem_filterMap.mp hmem with ⟨p, hp, hkeep⟩
    rcases Option.map_eq_some'.mp hkeep with ⟨mm, hk, hrec⟩
    have hb := segments_bounds mask p hp
    have hkm := keepSeg_some cfg baseRow currRow stdRow p.1 p.2 mm hk
    subst hrec
    exact ⟨hb.1, (show p.2 ≤ currRow.length by omega),
      (show p.2 ≤ baseRow.length by omega), hkm.1, hkm.2⟩
  unfold detectRow at hr
  rcases List.mem_append.mp hr with h | h
  · exact hmask true (maskUp cfg currRow baseRow)
      (by unfold maskUp; rw [List.length_zipWith]; omega)
      (by unfold maskUp; rw [List.length_zipWith]; omega) h
  · exact hmask false (maskDown cfg currRow baseRow)
      (by unfold maskDown; rw [List.length_zipWith]; omega)
      (by unfold maskDown; rw [List.length_zipWith]; omega) h

/-- C10: `_top3_mean` on a non-empty array of fewer than 3 elements is
the plain arithmetic mean, so any run of length 1 or 2 that reaches the
robust-level computation of the detection loop is scored by the plain
mean of its bins (for both the baseline and the current segment). -/
theorem C10_short_segment_plain_mean (cfg : Cfg) (stepIdx : ℕ)
    (baseRow currRow stdRow : List ℚ) (r : Rec)
    (hr : r ∈ detectRow cfg stepIdx baseRow currRow stdRow)
    (hlen : r.endIdx - r.startIdx < 3) :
    r.startIdx < r.endIdx ∧
      r.meanCurr =
        listSum (sliceL currRow r.startIdx r.endIdx) /
          (sliceL currRow r.startIdx r.endIdx).length ∧
      r.meanBase =
        listSum (sliceL baseRow r.startIdx r.endIdx) /
          (sliceL baseRow r.startIdx r.endIdx).length := by
  obtain ⟨hse, hec, heb, hmb, hmc⟩ := detectRow_run cfg stepIdx baseRow currRow stdRow r hr
  have hcl : (sliceL currRow r.startIdx r.endIdx).length < 3 := by
    rw [sliceL_length currRow _ _ hec]; omega
  have hbl : (sliceL baseRow r.startIdx r.endIdx).length < 3 := by
    rw [sliceL_length baseRow _ _ heb]; omega
  exact ⟨hse, by rw [hmc, top3_mean_short _ hcl], by rw [hmb, top3_mean_short _ hbl]⟩

theorem detectRowEvalLen2 :
    detectRow defaultCfg 0 [-90, -90, -90, -90] [-90, -50, -52, -90] [0, 0, 0, 0] =
      [⟨0, 1, 3, true, -90, -51⟩] := by
  have hmu : maskUp defaultCfg [-90, -50, -52, -90] [-90, -90, -90, -90] =
      [false, true, true, false] := by
    norm_num [maskUp, defaultCfg]
  have hmd : maskDown defaultCfg [-90, -50, -52, -90] [-90, -90, -90, -90] =
      [false, false, false, false] := by
    norm_num [maskDown, defaultCfg]
  have hk : keepSeg defaultCfg [-90, -90, -90, -90] [-90, -50, -52, -90] [0, 0, 0, 0] 1 3 =
      some (-90, -51) := by
    norm_num [keepSeg, defaultCfg, top3_mean, npMean, listSum, sliceL]
  rw [detectRow, hmu, hmd]
  rw [show segments [false, true, true, false] = [(1, 3)] from by decide]
  rw [show segments [false, false, false, false] = [] from by decide]
  simp [detectSegs, hk]

/-- Witness for C10: a detected run of length 2 whose robust levels
are the plain means of its two bins. -/
theorem C10_short_segment_plain_mean_witness :
    (⟨0, 1, 3, true, -90, -51⟩ : Rec) ∈
        detectRow defaultCfg 0 [-90, -90, -90, -90] [-90, -50, -52, -90] [0, 0, 0, 0] ∧
      (3 : ℕ) - 1 < 3 ∧
      (1 : ℕ) < 3 ∧
      (-51 : ℚ) =
        listSum (sliceL [-90, -50, -52, -90] 1 3) / (sliceL [-90, -50, -52, -90] 1 3).length :=
  ⟨by rw [detectRowEvalLen2]; exact List.mem_singleton.mpr rfl, by decide, by decide,
   (C10_short_segment_plain_mean defaultCfg 0 [-90, -90, -90, -90] [-90, -50, -52, -90]
      [0, 0, 0, 0] ⟨0, 1, 3, true, -90, -51⟩
      (by rw [detectRowEvalLen2]; exact List.mem_singleton.mpr rfl) (by decide)).2.1⟩

/-- C1 (code bug): the length filter `seg_len < MIN_BINS and seg_len > 2`
is vacuous for the default `min_bins = 3`, so the detection loop emits a
record for a maximal run of a single mask bin (length 1 < min_bins),
contradicting the documented minimum-run-length rule. -/
theorem C1_short_run_record_emitted :
    (detectRow defaultCfg 0 [-90, -90, -90, -90] [-90, -50, -90, -90] [0, 0, 0, 0]).map
        (fun r => (r.startIdx, r.endIdx)) = [(1, 2)] ∧
      2 - 1 < defaultCfg.minBins := by
  have hmu : maskUp defaultCfg [-90, -50, -90, -90] [-90, -90, -90, -90] =
      [false, true, false, false] := by
    norm_num [maskUp, defaultCfg]
  have hmd : maskDown defaultCfg [-90, -50, -90, -90] [-90, -90, -90, -90] =
      [false, false, false, false] := by
    norm_num [maskDown, defaultCfg]
  have hk : keepSeg defaultCfg [-90, -90, -90, -90] [-90, -50, -90, -90] [0, 0, 0, 0] 1 2 =
      some (-90, -50) := by
    norm_num [keepSeg, defaultCfg, top3_mean, npMean, listSum, sliceL]
  refine ⟨?_, by norm_num [defaultCfg]⟩
  rw [detectRow, hmu, hmd]
  rw [show segments [false, true, false, false] = [(1, 2)] from by decide]
  rw [show segments [false, false, false, false] = [] from by decide]
  simp [detectSegs, hk]

theorem rowAdd_zeros (r : List ℚ) : rowAdd (r.map fun _ => 0) r = r := by
  induction r with
  | nil => rfl
  | cons x xs ih => simp [rowAdd] at *; exact ih

theorem matAdd_zerosLike (m : Mat) : matAdd (zerosLike m) m = m := by
  induction m with
  | nil => rfl
  | cons r rs ih =>
    show rowAdd (r.map fun _ => 0) r :: matAdd (zerosLike rs) rs = r :: rs
    rw [rowAdd_zeros r, ih]

theorem zerosLike_shape (m : Mat) :
    (zerosLike m).length = m.length ∧ cols (zerosLike m) = cols m := by
  cases m <;> simp [zerosLike, cols]

theorem matAdd_shape (X s : Mat) (hl : X.length = s.length) (hc : cols X = cols s) :
    (matAdd X s).length = s.length ∧ cols (matAdd X s) = cols s := by
  cases X with
  | nil =>
    cases s with
    | nil => simp [matAdd, cols]
    | cons r rs => simp at hl
  | cons x xs =>
    cases s with
    | nil => simp at hl
    | cons r rs =>
      simp [matAdd, cols, rowAdd] at *
      omega

theorem bcastRow_self (row : List ℚ) (c : ℕ) (h : row.length = c) :
    bcastRow row c = some row := by
  simp [bcastRow, h]

theorem bcastRows_self (m : Mat) (c : ℕ) (h : ∀ r ∈ m, r.length = c) :
    bcastRows m c = some m := by
  induction m with
  | nil => rfl
  | cons r rs ih =>
    have hr : bcastRow r c = some r := bcastRow_self r c (h r (by simp))
    have hrs : bcastRows rs c = some rs := ih (fun t ht => h t (by simp [ht]))
    simp [bcastRows, hr, hrs]

theorem broadcastTo_self (m : Mat) (hr : Rect m) :
    broadcastTo m m.length (cols m) = some m := by
  simp [broadcastTo]
  exact bcastRows_self m (cols m) hr

theorem addInPlace_of_shape (X s : Mat) (hr : Rect s) (hl : X.length = s.length)
    (hc : cols X = cols s) : addInPlace X s = some (matAdd X s) := by
  unfold addInPlace
  rw [hl, hc, broadcastTo_self s hr]
  rfl

theorem rowDiv_five (r : List ℚ) :
    (rowAdd (rowAdd (rowAdd (rowAdd r r) r) r) r).map
      (fun x => x / ((BASELINE_SWEEPS : ℕ) : ℚ)) = r := by
  induction r with
  | nil => rfl
  | cons x xs ih =>
    simp [rowAdd] at *
    refine ⟨?_, ih⟩
    show (x + x + x + x + x) / ((5 : ℕ) : ℚ) = x
    push_cast
    ring_nf

theorem matDiv_five (s : Mat) :
    matDivN (matAdd (matAdd (matAdd (matAdd s s) s) s) s) BASELINE_SWEEPS = s := by
  induction s with
  | nil => rfl
  | cons r rs ih =>
    simp [matAdd, matDivN] at *
    exact ⟨rowDiv_five r, ih⟩

theorem process_sweep_warm (cfg : Cfg) (stdOf : List Mat → Mat) (probe : ℚ → ℚ × List ℚ)
    (st : DetState) (sweep : Mat) (hb : st.baseline = none) :
    process_sweep cfg stdOf probe st sweep = warmPhase st sweep := by
  simp [process_sweep, reinitHistory, hb]

/-- C5: feeding `BASELINE_SWEEPS` identical (rectangular) sweeps from
the initial state yields a baseline exactly equal to that sweep, and
the only output of all the warm-up cycles is the baseline-ready notice
(in particular no detection record is produced). -/
theorem C5_baseline_exact_after_warmup (cfg : Cfg) (stdOf : List Mat → Mat)
    (probe : ℚ → ℚ × List ℚ) (s : Mat) (hr : Rect s) :
    ∃ st5, runSweeps cfg stdOf probe initState (List.replicate BASELINE_SWEEPS s) =
        Except.ok (st5, [Out.baselineDone]) ∧ st5.baseline = some s := by
  have hzl := zerosLike_shape s
  have h1 : addInPlace (zerosLike s) s = some s := by
    rw [addInPlace_of_shape (zerosLike s) s hr hzl.1 hzl.2, matAdd_zerosLike]
  have h2 : addInPlace s s = some (matAdd s s) := addInPlace_of_shape s s hr rfl rfl
  have sh2 := matAdd_shape s s rfl rfl
  have h3 : addInPlace (matAdd s s) s = some (matAdd (matAdd s s) s) :=
    addInPlace_of_shape _ s hr sh2.1 sh2.2
  have sh3 := matAdd_shape (matAdd s s) s sh2.1 sh2.2
  have h4 : addInPlace (matAdd (matAdd s s) s) s =
      some (matAdd (matAdd (matAdd s s) s) s) :=
    addInPlace_of_shape _ s hr sh3.1 sh3.2
  have sh4 := matAdd_shape (matAdd (matAdd s s) s) s sh3.1 sh3.2
  have h5 : addInPlace (matAdd (matAdd (matAdd s s) s) s) s =
      some (matAdd (matAdd (matAdd (matAdd s s) s) s) s) :=
    addInPlace_of_shape _ s hr sh4.1 sh4.2
  have p1 : process_sweep cfg stdOf probe initState s =
      Except.ok (⟨some s, 1, none, List.replicate HISTORY_LEN (zerosLike s), 0, false, []⟩,
        []) := by
    rw [process_sweep_warm cfg stdOf probe initState s rfl]
    simp [warmPhase, initState, h1, BASELINE_SWEEPS]
  have p2 : process_sweep cfg stdOf probe
      ⟨some s, 1, none, List.replicate HISTORY_LEN (zerosLike s), 0, false, []⟩ s =
      Except.ok (⟨some (matAdd s s), 2, none,
        List.replicate HISTORY_LEN (zerosLike s), 0, false, []⟩, []) := by
    rw [process_sweep_warm cfg stdOf probe _ s rfl]
    simp [warmPhase, h2, BASELINE_SWEEPS]
  have p3 : process_sweep cfg stdOf probe
      ⟨some (matAdd s s), 2, none, List.replicate HISTORY_LEN (zerosLike s), 0, false, []⟩ s =
      Except.ok (⟨some (matAdd (matAdd s s) s), 3, none,
        List.replicate HISTORY_LEN (zerosLike s), 0, false, []⟩, []) := by
    rw [process_sweep_warm cfg stdOf probe _ s rfl]
    simp [warmPhase, h3, BASELINE_SWEEPS]
  have p4 : process_sweep cfg stdOf probe
      ⟨some (matAdd (matAdd s s) s), 3, none,
        List.replicate HISTORY_LEN (zerosLike s), 0, false, []⟩ s =
      Except.ok (⟨some (matAdd (matAdd (matAdd s s) s) s), 4, none,
        List.replicate HISTORY_LEN (zerosLike s), 0, false, []⟩, []) := by
    rw [process_sweep_warm cfg stdOf probe _ s rfl]
    simp [warmPhase, h4, BASELINE_SWEEPS]
  have p5 : process_sweep cfg stdOf probe
      ⟨some (matAdd (matAdd (matAdd s s) s) s), 4, none,
        List.replicate HISTORY_LEN (zerosLike s), 0, false, []⟩ s =
      Except.ok (⟨some (matAdd (matAdd (matAdd (matAdd s s) s) s) s), 5, some s,
        List.replicate HISTORY_LEN (zerosLike s), 0, false, []⟩, [Out.baselineDone]) := by
    rw [process_sweep_warm cfg stdOf probe _ s rfl]
    have hdiv := matDiv_five s
    simp [warmPhase, h5, BASELINE_SWEEPS] at hdiv ⊢
    exact hdiv
  refine ⟨⟨some (matAdd (matAdd (matAdd (matAdd s s) s) s) s), 5, some s,
    List.replicate HISTORY_LEN (zerosLike s), 0, false, []⟩, ?_, rfl⟩
  show runSweeps cfg stdOf probe initState (List.replicate BASELINE_SWEEPS s) = _
  rw [show List.replicate BASELINE_SWEEPS s = [s, s, s, s, s] from rfl]
  simp [runSweeps, p1, p2, p3, p4, p5]

/-- Witness for C5 at the concrete sweep `[[1, 2], [3, 4]]`. -/
theorem C5_baseline_exact_after_warmup_witness :
    ∃ st5, runSweeps defaultCfg (fun _ => []) (fun _ => (0, [])) initState
        (List.replicate BASELINE_SWEEPS [[1, 2], [3, 4]]) =
        Except.ok (st5, [Out.baselineDone]) ∧ st5.baseline = some [[1, 2], [3, 4]] :=
  C5_baseline_exact_after_warmup defaultCfg (fun _ => []) (fun _ => (0, []))
    [[1, 2], [3, 4]] (by decide)

/-- C8 (amended): during warm-up accumulation, `process_sweep` raises
(fails loudly) exactly when the sweep's shape cannot be broadcast to
the accumulator's shape; a broadcast-compatible mismatched shape is
accepted without any error. -/
theorem C8_fail_loud_iff_not_broadcastable (cfg : Cfg) (stdOf : List Mat → Mat)
    (probe : ℚ → ℚ × List ℚ) (st : DetState) (sweep A : Mat)
    (hb : st.baseline = none) (ha : st.baselineAccum = some A) :
    (∃ er, process_sweep cfg stdOf probe st sweep = Except.error er) ↔
      addInPlace A sweep = none := by
  rw [process_sweep_warm cfg stdOf probe st sweep hb]
  simp only [warmPhase, ha]
  cases hadd : addInPlace A sweep with
  | none => simp
  | some acc =>
    simp only []
    constructor
    · intro hex
      obtain ⟨er, her⟩ := hex
      split_ifs at her
    · intro hn
      exact absurd hn (by simp)

/-- C8 (counterexample): the mismatched 1 × 2 sweep against the fixed
2 × 2 shape is silently accepted during warm-up — it is broadcast into
both step rows and the observation count increments, with no error —
refuting "fail loudly on any shape differing from the one fixed at the
first observation". -/
theorem C8_broadcast_accepted_counterexample :
    process_sweep defaultCfg (fun _ => []) (fun _ => (0, []))
      ⟨some [[0, 0], [0, 0]], 1, none, List.replicate HISTORY_LEN [[0, 0], [0, 0]], 0,
        false, []⟩ [[1, 1]] =
      Except.ok (⟨some [[1, 1], [1, 1]], 2, none,
        List.replicate HISTORY_LEN [[0, 0], [0, 0]], 0, false, []⟩, []) := by
  rw [process_sweep_warm _ _ _ _ _ rfl]
  have hadd : addInPlace [[(0 : ℚ), 0], [0, 0]] [[1, 1]] = some [[1, 1], [1, 1]] := by
    norm_num [addInPlace, broadcastTo, bcastRows, bcastRow, cols, matAdd, rowAdd]
  simp [warmPhase, hadd, BASELINE_SWEEPS]

/-- Witness for C8 at a non-broadcastable shape (1 × 3 against 2 × 2):
the error does surface. -/
theorem C8_fail_loud_iff_not_broadcastable_witness :
    ∃ er, process_sweep defaultCfg (fun _ => []) (fun _ => (0, []))
        ⟨some [[0, 0], [0, 0]], 1, none, List.replicate HISTORY_LEN [[0, 0], [0, 0]], 0,
          false, []⟩ [[1, 1, 1]] = Except.error er :=
  (C8_fail_loud_iff_not_broadcastable defaultCfg (fun _ => []) (fun _ => (0, []))
      ⟨some [[0, 0], [0, 0]], 1, none, List.replicate HISTORY_LEN [[0, 0], [0, 0]], 0,
        false, []⟩ [[1, 1, 1]] [[0, 0], [0, 0]] rfl rfl).mpr
    (by norm_num [addInPlace, broadcastTo, bcastRows, bcastRow, cols])

/-- C9 (counterexample): the very first sweep is consumed by warm-up
accumulation and produces no output at all — neither the cycle-timing
line nor any alert status — so a warm-up cycle is indistinguishable
from silence. -/
theorem C9_warmup_silent_counterexample :
    process_sweep defaultCfg (fun _ => []) (fun _ => (0, [])) initState [[0]] =
      Except.ok (⟨some [[0]], 1, none, List.replicate HISTORY_LEN [[0]], 0, false, []⟩,
        ([] : List Out)) := by
  rw [process_sweep_warm _ _ _ _ _ rfl]
  have hadd : addInPlace [[(0 : ℚ)]] [[0]] = some [[0]] := by
    norm_num [addInPlace, broadcastTo, bcastRows, bcastRow, cols, matAdd, rowAdd]
  simp [warmPhase, initState, hadd, BASELINE_SWEEPS, zerosLike]

theorem warmPhase_outs (st st2 : DetState) (sweep : Mat) (outs : List Out)
    (h : warmPhase st sweep = Except.ok (st2, outs)) :
    outs = [] ∨ outs = [Out.baselineDone] := by
  simp only [warmPhase] at h
  split at h
  · exact absurd h (by simp)
  · split_ifs at h <;>
      simp only [Except.ok.injEq, Prod.mk.injEq] at h
    · exact Or.inr h.2.symm
    · exact Or.inl h.2.symm

theorem histPhase_outs (st st2 : DetState) (sweep : Mat) (outs : List Out)
    (h : histPhase st sweep = Except.ok (st2, outs)) : outs = [Out.sweepTime] := by
  simp only [histPhase, Except.ok.injEq, Prod.mk.injEq] at h
  exact h.2.symm

theorem mainPhase_summary (cfg : Cfg) (stdOf : List Mat → Mat) (probe : ℚ → ℚ × List ℚ)
    (st st2 : DetState) (sweep : Mat) (outs : List Out)
    (h : mainPhase cfg stdOf probe st sweep = Except.ok (st2, outs)) :
    Out.sweepTime ∈ outs ∧ (Out.noAlerts ∈ outs ∨ ∃ o ∈ outs, o.isAlert = true) := by
  simp only [mainPhase] at h
  split at h
  · exact absurd h (by simp)
  · rename_i sw base heq
    simp only [Except.ok.injEq, Prod.mk.injEq] at h
    obtain ⟨-, houts⟩ := h
    subst houts
    refine ⟨by simp, ?_⟩
    cases hrecs : detectSweep cfg base sw (stdOf st.history) with
    | nil => left; simp [hrecs]
    | cons r rest =>
      right
      refine ⟨Out.alert r.stepIdx r.startIdx r.endIdx r.pos, ?_, rfl⟩
      simp [hrecs]

theorem reinitHistory_baseline (st : DetState) (sweep : Mat) :
    (reinitHistory st sweep).baseline = st.baseline := by
  unfold reinitHistory; split <;> rfl

theorem reinitHistory_filled (st : DetState) (sweep : Mat) :
    (reinitHistory st sweep).histFilled = st.histFilled := by
  unfold reinitHistory; split <;> rfl

theorem reinitHistory_tracked (st : DetState) (sweep : Mat) :
    (reinitHistory st sweep).tracked = st.tracked := by
  unfold reinitHistory; split <;> rfl

theorem process_sweep_hist (cfg : Cfg) (stdOf : List Mat → Mat) (probe : ℚ → ℚ × List ℚ)
    (st : DetState) (sweep B : Mat) (hb : st.baseline = some B)
    (hf : st.histFilled = false) :
    process_sweep cfg stdOf probe st sweep = histPhase (reinitHistory st sweep) sweep := by
  unfold process_sweep
  have h1 : (reinitHistory st sweep).baseline = some B := by
    rw [reinitHistory_baseline, hb]
  have h2 : (reinitHistory st sweep).histFilled = false := by
    rw [reinitHistory_filled, hf]
  simp only [h1, h2, Bool.false_eq_true, if_false]

theorem process_sweep_main (cfg : Cfg) (stdOf : List Mat → Mat) (probe : ℚ → ℚ × List ℚ)
    (st : DetState) (sweep B : Mat) (hb : st.baseline = some B)
    (hf : st.histFilled = true) :
    process_sweep cfg stdOf probe st sweep =
      mainPhase cfg stdOf probe (reinitHistory st sweep) sweep := by
  unfold process_sweep
  have h1 : (reinitHistory st sweep).baseline = some B := by
    rw [reinitHistory_baseline, hb]
  have h2 : (reinitHistory st sweep).histFilled = true := by
    rw [reinitHistory_filled, hf]
  simp only [h1, h2, if_true]

/-- C9 (amended): warm-up cycles print no per-cycle summary at all
(only the baseline-ready notice on the final warm-up sweep); once a
baseline exists, history-filling cycles print exactly the timing line
with no alert status, and full detection cycles print the timing line
together with an alert status (the no-alerts line or at least one
record line). -/
theorem C9_summary_by_phase_amended (cfg : Cfg) (stdOf : List Mat → Mat)
    (probe : ℚ → ℚ × List ℚ) (st st2 : DetState) (sweep : Mat) (outs : List Out)
    (h : process_sweep cfg stdOf probe st sweep = Except.ok (st2, outs)) :
    (st.baseline = none → Out.sweepTime ∉ outs) ∧
    (st.baseline ≠ none → st.histFilled = false → outs = [Out.sweepTime]) ∧
    (st.baseline ≠ none → st.histFilled = true →
      Out.sweepTime ∈ outs ∧ (Out.noAlerts ∈ outs ∨ ∃ o ∈ outs, o.isAlert = true)) := by
  refine ⟨?_, ?_, ?_⟩
  · intro hbase
    rw [process_sweep_warm cfg stdOf probe st sweep hbase] at h
    rcases warmPhase_outs st st2 sweep outs h with ho | ho <;> simp [ho]
  · intro hne hf
    obtain ⟨B, hB⟩ := Option.ne_none_iff_exists'.mp hne
    rw [process_sweep_hist cfg stdOf probe st sweep B hB hf] at h
    exact histPhase_outs _ st2 sweep outs h
  · intro hne hf
    obtain ⟨B, hB⟩ := Option.ne_none_iff_exists'.mp hne
    rw [process_sweep_main cfg stdOf probe st sweep B hB hf] at h
    exact mainPhase_summary cfg stdOf probe _ st2 sweep outs h

theorem mainQuietEval :
    process_sweep defaultCfg (fun _ => [[0, 0, 0]]) (fun _ => (0, []))
        ⟨some [[0, 0, 0]], 5, some [[-90, -90, -90]], [[[0, 0, 0]]], 10, true, []⟩
        [[-90, -90, -90]] =
      Except.ok (⟨some [[0, 0, 0]], 5, some [[-90, -90, -90]], [[[-90, -90, -90]]], 11,
        true, []⟩, [Out.computing, Out.sweepTime, Out.noAlerts]) := by
  rw [process_sweep_main defaultCfg (fun _ => [[0, 0, 0]]) (fun _ => (0, [])) _ _
    [[-90, -90, -90]] rfl rfl]
  have hri : reinitHistory
      ⟨some [[0, 0, 0]], 5, some [[-90, -90, -90]], [[[0, 0, 0]]], 10, true, []⟩
      [[-90, -90, -90]] =
      ⟨some [[0, 0, 0]], 5, some [[-90, -90, -90]], [[[0, 0, 0]]], 10, true, []⟩ := by
    simp [reinitHistory]
  rw [hri]
  have hmu : maskUp defaultCfg [-90, -90, -90] [-90, -90, -90] = [false, false, false] := by
    norm_num [maskUp, defaultCfg]
  have hmd : maskDown defaultCfg [-90, -90, -90] [-90, -90, -90] =
      [false, false, false] := by
    norm_num [maskDown, defaultCfg]
  have hbp : broadcastPair [[(-90 : ℚ), -90, -90]] [[-90, -90, -90]] =
      some ([[-90, -90, -90]], [[-90, -90, -90]]) := by
    norm_num [broadcastPair, dimB, cols, broadcastTo, bcastRows, bcastRow]
  have hdet : detectSweep defaultCfg [[-90, -90, -90]] [[-90, -90, -90]] [[0, 0, 0]] =
      [] := by
    simp [detectSweep, rowTriggers, hmu, hmd]
  simp [mainPhase, hbp, hdet, trackAll, evict, HISTORY_LEN]

/-- Witness for C9 (amended) at a quiet full detection cycle: the
timing line is printed and the no-alerts line supplies the alert
status. -/
theorem C9_summary_by_phase_amended_witness :
    Out.sweepTime ∈ ([Out.computing, Out.sweepTime, Out.noAlerts] : List Out) ∧
      (Out.noAlerts ∈ ([Out.computing, Out.sweepTime, Out.noAlerts] : List Out) ∨
        ∃ o ∈ ([Out.computing, Out.sweepTime, Out.noAlerts] : List Out), o.isAlert = true) :=
  (C9_summary_by_phase_amended defaultCfg (fun _ => [[0, 0, 0]]) (fun _ => (0, []))
      ⟨some [[0, 0, 0]], 5, some [[-90, -90, -90]], [[[0, 0, 0]]], 10, true, []⟩
      ⟨some [[0, 0, 0]], 5, some [[-90, -90, -90]], [[[-90, -90, -90]]], 11, true, []⟩
      [[-90, -90, -90]] [Out.computing, Out.sweepTime, Out.noAlerts]
      mainQuietEval).2.2 (by simp) rfl

theorem evict_mem (thr : ℚ) (sw : Mat) (tr : List Entry) (e : Entry) :
    e ∈ evict thr sw tr ↔
      e ∈ tr ∧ thr ≤ |top3_mean (resampleSeg sw e.idx) - e.baseline| := by
  simp [evict, List.mem_filter, not_lt]

/-- C4: after a full detection cycle the tracked map equals the
eviction filter applied to the updated map, so every surviving entry's
re-sampled robust level still deviates from its stored baseline by at
least the threshold, and every entry subjected to the cycle — old,
refreshed, or created this very cycle — is deleted when its re-sampled
deviation is below the threshold. -/
theorem C4_eviction_invariant (cfg : Cfg) (stdOf : List Mat → Mat)
    (probe : ℚ → ℚ × List ℚ) (st st2 : DetState) (sweep B : Mat) (outs : List Out)
    (h : process_sweep cfg stdOf probe st sweep = Except.ok (st2, outs))
    (hb : st.baseline = some B) (hf : st.histFilled = true) :
    (∀ e ∈ st2.tracked,
      cfg.thresholdDb ≤ |top3_mean (resampleSeg sweep e.idx) - e.baseline|) ∧
    (∀ (thr : ℚ) (sw : Mat) (tr : List Entry) (e : Entry),
      e ∈ evict thr sw tr ↔
        e ∈ tr ∧ thr ≤ |top3_mean (resampleSeg sw e.idx) - e.baseline|) ∧
    (∃ sw base, broadcastPair sweep B = some (sw, base) ∧
      st2.tracked = evict cfg.thresholdDb sweep
        (trackAll cfg probe st.tracked
          (detectSweep cfg base sw (stdOf (reinitHistory st sweep).history)))) := by
  rw [process_sweep_main cfg stdOf probe st sweep B hb hf] at h
  simp only [mainPhase] at h
  have hgd : (reinitHistory st sweep).baseline.getD [] = B := by
    rw [reinitHistory_baseline, hb]
    rfl
  rw [hgd] at h
  split at h
  · exact absurd h (by simp)
  · rename_i sw base heq
    simp only [Except.ok.injEq, Prod.mk.injEq] at h
    obtain ⟨hstate, -⟩ := h
    have htr : st2.tracked = evict cfg.thresholdDb sweep
        (trackAll cfg probe st.tracked
          (detectSweep cfg base sw (stdOf (reinitHistory st sweep).history))) := by
      rw [← hstate, reinitHistory_tracked]
    refine ⟨?_, fun thr sw2 tr e => evict_mem thr sw2 tr e, ⟨sw, base, heq, htr⟩⟩
    intro e he
    rw [htr] at he
    exact ((evict_mem _ _ _ e).mp he).2

/-- Witness for C4 at the quiet detection cycle of `mainQuietEval`:
the pipeline decomposition holds there. -/
theorem C4_eviction_invariant_witness :
    ∃ sw base, broadcastPair [[(-90 : ℚ), -90, -90]] [[-90, -90, -90]] = some (sw, base) ∧
      ([] : List Entry) = evict defaultCfg.thresholdDb [[-90, -90, -90]]
        (trackAll defaultCfg (fun _ => (0, [])) []
          (detectSweep defaultCfg base sw ((fun _ => [[0, 0, 0]])
            (reinitHistory
              ⟨some [[0, 0, 0]], 5, some [[-90, -90, -90]], [[[0, 0, 0]]], 10, true, []⟩
              [[-90, -90, -90]]).history))) :=
  (C4_eviction_invariant defaultCfg (fun _ => [[0, 0, 0]]) (fun _ => (0, []))
      ⟨some [[0, 0, 0]], 5, some [[-90, -90, -90]], [[[0, 0, 0]]], 10, true, []⟩
      ⟨some [[0, 0, 0]], 5, some [[-90, -90, -90]], [[[-90, -90, -90]]], 11, true, []⟩
      [[-90, -90, -90]] [[-90, -90, -90]] [Out.computing, Out.sweepTime, Out.noAlerts]
      mainQuietEval rfl rfl).2.2

/-- C7: the tracking key is computed from the run's indices alone via
`rangeKey`; when a run with identical bin coordinates recurs while its
key is already tracked, the tracker update leaves the key set unchanged
(no duplicate entry) and the entry with that key is the old entry
refreshed: stored baseline kept, count incremented by one. -/
theorem C7_key_refresh_no_duplicate (cfg : Cfg) (probe : ℚ → ℚ × List ℚ)
    (tr : List Entry) (r : Rec)
    (hk : rangeKey cfg r.stepIdx r.startIdx r.endIdx ∈ tr.map Entry.key) :
    ((applyRec cfg probe tr r).map Entry.key = tr.map Entry.key) ∧
    (∀ e2 ∈ applyRec cfg probe tr r,
      e2.key = rangeKey cfg r.stepIdx r.startIdx r.endIdx →
      ∃ e1 ∈ tr, e1.key = e2.key ∧ e2.count = e1.count + 1 ∧
        e2.baseline = e1.baseline) := by
  have hfind : ∃ e0, tr.find? (fun e =>
      decide (e.key = rangeKey cfg r.stepIdx r.startIdx r.endIdx)) = some e0 := by
    rw [← Option.isSome_iff_exists, List.find?_isSome]
    obtain ⟨e, he, hek⟩ := List.mem_map.mp hk
    exact ⟨e, he, by simp [hek]⟩
  obtain ⟨e0, hfind⟩ := hfind
  have happ : applyRec cfg probe tr r = tr.map (fun e =>
      if e.key = rangeKey cfg r.stepIdx r.startIdx r.endIdx then
        { e with master := r.meanCurr,
                 slaves := (probe (((rangeKey cfg r.stepIdx r.startIdx r.endIdx).1 +
                   (rangeKey cfg r.stepIdx r.startIdx r.endIdx).2) / 2 * 1000000)).2,
                 ts := (probe (((rangeKey cfg r.stepIdx r.startIdx r.endIdx).1 +
                   (rangeKey cfg r.stepIdx r.startIdx r.endIdx).2) / 2 * 1000000)).1,
                 idx := (r.stepIdx, r.startIdx, r.endIdx), count := e.count + 1 }
      else e) := by
    simp only [applyRec, hfind]
  constructor
  · rw [happ, List.map_map]
    apply List.map_congr_left
    intro e _
    by_cases hek : e.key = rangeKey cfg r.stepIdx r.startIdx r.endIdx <;>
      simp [Function.comp, hek]
  · intro e2 he2 hke2
    rw [happ] at he2
    obtain ⟨e1, he1, hfe⟩ := List.mem_map.mp he2
    by_cases hek : e1.key = rangeKey cfg r.stepIdx r.startIdx r.endIdx
    · rw [if_pos hek] at hfe
      refine ⟨e1, he1, ?_, ?_, ?_⟩
      · rw [hke2, ← hek]
      · rw [← hfe]
      · rw [← hfe]
    · rw [if_neg hek] at hfe
      rw [hfe] at hek
      exact absurd hke2 hek

/-- Witness for C7: refreshing an already-tracked key leaves the key
list unchanged. -/
theorem C7_key_refresh_no_duplicate_witness :
    (applyRec defaultCfg (fun _ => (0, []))
        [⟨rangeKey defaultCfg 0 1 2, -90, -50, [], 0, (0, 1, 2), 1, none⟩]
        ⟨0, 1, 2, true, -90, -50⟩).map Entry.key =
      ([⟨rangeKey defaultCfg 0 1 2, -90, -50, [], 0, (0, 1, 2), 1, none⟩] :
        List Entry).map Entry.key :=
  (C7_key_refresh_no_duplicate defaultCfg (fun _ => (0, []))
      [⟨rangeKey defaultCfg 0 1 2, -90, -50, [], 0, (0, 1, 2), 1, none⟩]
      ⟨0, 1, 2, true, -90, -50⟩ (by simp)).1

theorem rrStep_oneOut_char (a b r d : ℕ) (st2 : List (List ℕ))
    (h : rrStep respondsOneOut [[a, b]] r d = some st2) :
    (r = 0 ∧ d = 0 ∧ a < 5 ∧ st2 = [[a + 1, b]]) ∨
    (r = 0 ∧ d = 1 ∧ b < 5 ∧ b ≠ 2 ∧ st2 = [[a, b + 1]]) := by
  rcases r with _ | r
  · rcases d with _ | d
    · left
      simp only [rrStep, respondsOneOut, progLen, waitIdx] at h
      simp at h
      exact ⟨rfl, rfl, h.1, h.2.symm⟩
    · rcases d with _ | d
      · right
        simp only [rrStep, respondsOneOut, progLen, waitIdx] at h
        simp at h
        exact ⟨rfl, rfl, h.1.1, h.1.2, h.2.symm⟩
      · exfalso
        simp [rrStep, progLen] at h
  · exfalso
    simp [rrStep, progLen] at h

theorem rrExec_oneOut_inv (t : List (ℕ × ℕ)) :
    ∀ (a b : ℕ), b ≤ 2 → ∀ st, rrExec respondsOneOut [[a, b]] t = some st →
      ∃ a2 b2, st = [[a2, b2]] ∧ b2 ≤ 2 := by
  induction t with
  | nil =>
    intro a b hb st h
    simp only [rrExec, Option.some.injEq] at h
    exact ⟨a, b, h.symm, hb⟩
  | cons c rest ih =>
    intro a b hb st h
    simp only [rrExec] at h
    cases hstep : rrStep respondsOneOut [[a, b]] c.1 c.2 with
    | none => rw [hstep] at h; exact absurd h (by simp)
    | some stm =>
      rw [hstep] at h
      rcases rrStep_oneOut_char a b c.1 c.2 stm hstep with
        ⟨-, -, -, hst⟩ | ⟨-, -, -, hbne, hst⟩
      · subst hst
        exact ih (a + 1) b hb st h
      · subst hst
        exact ih a (b + 1) (by omega) st h

/-- C2 (counterexample): with one auxiliary device never firing its
callback, a maximal schedule of `measure_rssi`'s workers reaches a
state where the responding device's worker has finished, the other is
blocked forever at its untimed `event.wait()`, no worker can take
another step, and the round has not completed — the caller is stuck
rather than receiving `[-55.0, sentinel]`. -/
theorem C2_round_stuck_counterexample :
    rrExec respondsOneOut (rrInit 1 2)
        [(0, 0), (0, 0), (0, 0), (0, 0), (0, 0), (0, 1), (0, 1)] = some [[5, 2]] ∧
      rrStep respondsOneOut [[5, 2]] 0 0 = none ∧
      rrStep respondsOneOut [[5, 2]] 0 1 = none ∧
      rrDone [[5, 2]] = false := by
  decide

/-- C2 (amended): `measure_rssi` has no per-device timeout — under
every schedule, a worker whose device never responds stays at or
before its `event.wait()` and the round never completes (the caller's
`join` waits indefinitely); only when every device responds can the
round run to completion. -/
theorem C2_no_timeout_amended (t : List (ℕ × ℕ)) (st : List (List ℕ))
    (h : rrExec respondsOneOut (rrInit 1 2) t = some st) :
    ((st.getD 0 []).getD 1 0 ≤ waitIdx ∧ rrDone st = false) ∧
    (∃ t2 st2, rrExec respondsBoth (rrInit 1 2) t2 = some st2 ∧ rrDone st2 = true) := by
  constructor
  · have hinit : rrInit 1 2 = [[0, 0]] := rfl
    rw [hinit] at h
    obtain ⟨a2, b2, hst, hb2⟩ := rrExec_oneOut_inv t 0 0 (by omega) st h
    subst hst
    constructor
    · simpa [waitIdx] using hb2
    · simp [rrDone, progLen]
      omega
  · exact ⟨[(0, 0), (0, 0), (0, 0), (0, 0), (0, 0),
      (0, 1), (0, 1), (0, 1), (0, 1), (0, 1)], [[5, 5]], by decide, by decide⟩

/-- Witness for C2 (amended) at the empty schedule. -/
theorem C2_no_timeout_amended_witness :
    (((rrInit 1 2).getD 0 []).getD 1 0 ≤ waitIdx ∧ rrDone (rrInit 1 2) = false) ∧
      (∃ t2 st2, rrExec respondsBoth (rrInit 1 2) t2 = some st2 ∧ rrDone st2 = true) :=
  C2_no_timeout_amended [] (rrInit 1 2) rfl

/-- C3 (counterexample): `measure_rssi` takes no lock, so the
interleaving in which round 0 and round 1 both issue `set_freq` on
device 0 before either finishes is a valid execution; after it both
rounds are simultaneously inside their retune-measure window on the
same device, refuting mutual exclusion of correlation rounds. -/
theorem C3_overlap_counterexample :
    rrExec respondsBoth (rrInit 2 1) [(0, 0), (1, 0)] = some [[1], [1]] ∧
      inRetune [[1], [1]] 0 0 = true ∧ inRetune [[1], [1]] 1 0 = true := by
  decide

/-- C3 (amended): concurrent correlation rounds are not serialized by
any lock: there exists a valid interleaving of two rounds over one
shared device in which both rounds are simultaneously between their
`set_freq` and `stop_rx` on that device. -/
theorem C3_unserialized_amended :
    ∃ (t : List (ℕ × ℕ)) (st : List (List ℕ)),
      rrExec respondsBoth (rrInit 2 1) t = some st ∧
        inRetune st 0 0 = true ∧ inRetune st 1 0 = true :=
  ⟨[(0, 0), (1, 0)], [[1], [1]], by decide, by decide, by decide⟩
